import Mathlib

/-!
Verification of the minesweeper inference engine (src/minesweeper.py).

The embedding below translates the `Sentence` and `MinesweeperAI` classes.
Python sets of cells are modelled as duplicate-free lists (insertion order);
set membership, set difference and subset tests are the corresponding list
operations, and `Sentence.__eq__` (set equality of `cells` plus equality of
`count`) is `sentEq`.  Python integers are `ℤ`.  The one I/O-free source of
nondeterminism, `random.choice` in `make_random_move`, is modelled by an
extra index argument.
-/

namespace Minesweeper

/-- A board coordinate `(row, col)`, as the Python tuple of ints. -/
abbrev Cell := ℤ × ℤ

/-- `Sentence(cells, count)` of the source: a set of cells and a count.
`cells` is a duplicate-free list standing for the Python set. -/
structure Sentence where
  cells : List Cell
  count : ℤ
  deriving Repr, DecidableEq

/-- `Sentence.known_mines`: all cells if `len(self.cells) == self.count`,
else the empty set (lines 105-113 of the source). -/
def Sentence.known_mines (s : Sentence) : List Cell :=
  if (s.cells.length : ℤ) = s.count then s.cells else []

/-- `Sentence.known_safes`: all cells if `self.count == 0`, else the empty
set (lines 118-125). -/
def Sentence.known_safes (s : Sentence) : List Cell :=
  if s.count = 0 then s.cells else []

/-- `Sentence.mark_mine`: if the cell is present, remove it and decrement
the count (lines 129-140). -/
def Sentence.mark_mine (s : Sentence) (c : Cell) : Sentence :=
  if c ∈ s.cells then ⟨s.cells.erase c, s.count - 1⟩ else s

/-- `Sentence.mark_safe`: if the cell is present, remove it, count
unchanged (lines 144-153). -/
def Sentence.mark_safe (s : Sentence) (c : Cell) : Sentence :=
  if c ∈ s.cells then ⟨s.cells.erase c, s.count⟩ else s

/-- Python `small_set <= big_set` on sets-as-lists. -/
def listSubset (xs ys : List Cell) : Bool :=
  xs.all fun c => decide (c ∈ ys)

/-- `Sentence.__eq__` (lines 99-100): equal cell sets and equal counts. -/
def sentEq (a b : Sentence) : Bool :=
  listSubset a.cells b.cells && listSubset b.cells a.cells && a.count == b.count

/-- Python `set.add`: insert if absent (keeps the list duplicate-free). -/
def addCell (l : List Cell) (c : Cell) : List Cell :=
  if c ∈ l then l else l ++ [c]

/-- The state of a `MinesweeperAI` instance (lines 163-177). -/
structure AIState where
  height : ℤ
  width : ℤ
  moves_made : List Cell
  mines : List Cell
  safes : List Cell
  knowledge : List Sentence
  deriving Repr, DecidableEq

/-- `MinesweeperAI.__init__(height, width)`: empty fact sets, empty
knowledge list. -/
def initialState (height width : ℤ) : AIState :=
  ⟨height, width, [], [], [], []⟩

/-- `MinesweeperAI.mark_mine` (lines 179-186): add to `mines`, then apply
`Sentence.mark_mine` to every sentence in `knowledge`. -/
def AIState.mark_mine (s : AIState) (c : Cell) : AIState :=
  { s with mines := addCell s.mines c,
           knowledge := s.knowledge.map fun sen => sen.mark_mine c }

/-- `MinesweeperAI.mark_safe` (lines 188-195): add to `safes`, then apply
`Sentence.mark_safe` to every sentence in `knowledge`. -/
def AIState.mark_safe (s : AIState) (c : Cell) : AIState :=
  { s with safes := addCell s.safes c,
           knowledge := s.knowledge.map fun sen => sen.mark_safe c }

/-- The nine offsets the double loop of `neighbors_to_cell` enumerates, in
loop (row-major) order; `(0,0)` is the cell itself, rejected by the
`(row, col) != cell` conjunct of the guard. -/
def offsets : List Cell :=
  [(-1, -1), (-1, 0), (-1, 1), (0, -1), (0, 0), (0, 1), (1, -1), (1, 0), (1, 1)]

/-- The nine candidate coordinates `(row, col)` of the double loop. -/
def cands (cell : Cell) : List Cell :=
  offsets.map fun d => (cell.1 + d.1, cell.2 + d.2)

/-- The bounds conjuncts of the loop guard: `0 <= col < width` and
`0 <= row < height`. -/
def inBounds (height width : ℤ) (c : Cell) : Bool :=
  decide (0 ≤ c.2) && decide (c.2 < width) && decide (0 ≤ c.1) && decide (c.1 < height)

/-- The whole loop guard of `neighbors_to_cell` (lines 210-213): bounds,
`(row, col) != cell`, and the conjunct `(row, col) is not self.moves_made`.
The latter compares a tuple against a set by object identity, which is
always true (they are never the same object), so it adds no condition. -/
def neighborGuard (s : AIState) (cell c : Cell) : Bool :=
  inBounds s.height s.width c && decide (c ≠ cell)

/-- `MinesweeperAI.neighbors_to_cell` (lines 198-226).  Of the guarded
candidates, a known mine bumps the tally and is dropped, a known safe is
dropped, anything else is collected; returns `(neighbors, mines)`. -/
def AIState.neighbors_to_cell (s : AIState) (cell : Cell) : List Cell × ℤ :=
  let T := (cands cell).filter fun c => neighborGuard s cell c
  (T.filter fun c => decide (c ∉ s.mines) && decide (c ∉ s.safes),
   ((T.filter fun c => decide (c ∈ s.mines)).length : ℤ))

/-- Steps 1 and 2 of `add_knowledge` (lines 245-249): add the probed cell
to `moves_made` and to `safes`.  (The source calls `self.safes.add(cell)`
directly, not `self.mark_safe(cell)`.) -/
def step12 (s : AIState) (cell : Cell) : AIState :=
  { s with moves_made := addCell s.moves_made cell,
           safes := addCell s.safes cell }

/-- The probe sentence of step 3 of `add_knowledge` (lines 253-259): the
unresolved neighbors with the count adjusted by the known neighboring
mines. -/
def probeSentence (s : AIState) (cell : Cell) (count : ℤ) : Sentence :=
  ⟨(s.neighbors_to_cell cell).1, count - (s.neighbors_to_cell cell).2⟩

/-- Step 3 of `add_knowledge` (lines 251-263): append the probe sentence
unless a structurally equal sentence is already in `knowledge`. -/
def step3 (s : AIState) (cell : Cell) (count : ℤ) : AIState :=
  if s.knowledge.any (fun t => sentEq (probeSentence s cell count) t) then s
  else { s with knowledge := s.knowledge ++ [probeSentence s cell count] }

/-- One iteration of the step-4 loop (lines 269-277): read the sentence at
index `i` of the live knowledge list, snapshot its `known_safes` and
`known_mines`, then mark each. -/
def scanSentence (s : AIState) (i : ℕ) : AIState :=
  let sen := s.knowledge.getD i ⟨[], 0⟩
  let sf := sen.known_safes
  let mn := sen.known_mines
  let s1 := sf.foldl AIState.mark_safe s
  mn.foldl AIState.mark_mine s1

/-- Step 4 of `add_knowledge` (lines 265-277): one in-order scan of the
knowledge list (its length is unchanged by the marks). -/
def step4 (s : AIState) : AIState :=
  (List.range s.knowledge.length).foldl scanSentence s

/-- Python `list.remove`: drop the first element equal (by `__eq__`,
i.e. `sentEq`) to the argument. -/
def removeFirst (l : List Sentence) (x : Sentence) : List Sentence :=
  match l with
  | [] => []
  | y :: ys => if sentEq x y then ys else y :: removeFirst ys x

/-- Python `big_set - small_set` on sets-as-lists (line 315). -/
def setDiff (big small : List Cell) : List Cell :=
  big.filter fun c => decide (c ∉ small)

/-- The subset-subtraction body (lines 313-332): if `small ⊆ big`, take
`diff = big - small`; a singleton `diff` is marked safe (`dc = 0`) or mine
(`dc = 1`) directly, anything else is appended to `knowledge` with no
duplicate check. -/
def subtractStep (s : AIState) (small big : List Cell) (dc : ℤ) : AIState :=
  if listSubset small big then
    if (setDiff big small).length = 1 then
      if dc = 0 then s.mark_safe ((setDiff big small).headD (0, 0))
      else if dc = 1 then s.mark_mine ((setDiff big small).headD (0, 0))
      else s
    else { s with knowledge := s.knowledge ++ [⟨setDiff big small, dc⟩] }
  else s

/-- The inner-loop body of step 5 (lines 290-332): pick the strictly
larger sentence as `big` (skipping the pair when either cell set is empty
or the sizes are equal) and run the subtraction. -/
def innerBody (sen1 : Sentence) (s : AIState) (sen2 : Sentence) : AIState :=
  if sen1.cells.length > sen2.cells.length ∧ sen1.cells.length ≠ 0 ∧ sen2.cells.length ≠ 0 then
    subtractStep s sen2.cells sen1.cells (sen1.count - sen2.count)
  else if sen2.cells.length > sen1.cells.length ∧ sen1.cells.length ≠ 0 ∧ sen2.cells.length ≠ 0 then
    subtractStep s sen1.cells sen2.cells (sen2.count - sen1.count)
  else s

/-- The inner loop `for sen2 in known_sentences` over the remaining
snapshot. -/
def innerLoop (sen1 : Sentence) (l : List Sentence) (s : AIState) : AIState :=
  l.foldl (innerBody sen1) s

/-- The outer loop of step 5 with CPython list-iterator semantics: the
iterator reads index `idx` of the current list, then the body removes the
element just read (`known_sentences.remove(sen1)`), so the iterator's next
read skips the element that slid into position `idx`.  Fuel bounds the
recursion; `l.length` steps always suffice because each step shortens the
list and advances the index. -/
def outerLoop : ℕ → List Sentence → ℕ → AIState → AIState
  | 0, _, _, s => s
  | fuel + 1, l, idx, s =>
    if h : idx < l.length then
      let sen1 := l.get ⟨idx, h⟩
      let l2 := removeFirst l sen1
      outerLoop fuel l2 (idx + 1) (innerLoop sen1 l2 s)
    else s

/-- Step 5 of `add_knowledge` (lines 283-332): iterate over a snapshot
(`copy.deepcopy`) of the knowledge list; appends and marks go to the live
state. -/
def step5 (s : AIState) : AIState :=
  outerLoop s.knowledge.length s.knowledge 0 s

/-- `MinesweeperAI.add_knowledge` (lines 230-332): steps 1-2, 3, 4, 5 in
order. -/
def AIState.add_knowledge (s : AIState) (cell : Cell) (count : ℤ) : AIState :=
  step5 (step4 (step3 (step12 s cell) cell count))

/-- `MinesweeperAI.make_safe_move` (lines 339-366): scan `safes` for a
cell not yet in `moves_made`; record and return the first hit, else
return nothing.  Prints are ignored. -/
def AIState.make_safe_move (s : AIState) : Option Cell × AIState :=
  match s.safes.find? (fun c => decide (c ∉ s.moves_made)) with
  | some c => (some c, { s with moves_made := addCell s.moves_made c })
  | none => (none, s)

/-- The row-major board enumeration of `make_random_move` (lines 380-383). -/
def boardCells (height width : ℤ) : List Cell :=
  (List.range height.toNat).flatMap fun r =>
    (List.range width.toNat).map fun c => ((r : ℤ), (c : ℤ))

/-- The candidate list of `make_random_move` (lines 378-388): board cells
neither in `mines` nor in `moves_made`, in board order. -/
def futureMoves (s : AIState) : List Cell :=
  (boardCells s.height s.width).filter fun c =>
    decide (c ∉ s.mines) && decide (c ∉ s.moves_made)

/-- `MinesweeperAI.make_random_move` (lines 369-399): `random.choice` is
modelled by the index `k`; the chosen cell is recorded into `moves_made`. -/
def AIState.make_random_move (s : AIState) (k : ℕ) : Option Cell × AIState :=
  if (futureMoves s).length = 0 then (none, s)
  else
    (some ((futureMoves s).getD (k % (futureMoves s).length) (0, 0)),
     { s with moves_made :=
        addCell s.moves_made ((futureMoves s).getD (k % (futureMoves s).length) (0, 0)) })

/-! ### Specification-side definitions

Ground truth for soundness: a mine layout `isMine`, truth of a sentence
with respect to it, and the reachable states of an engine driven by a
collaborator that honours the inbound contract of the spec. -/

/-- Number of true mines in a list of cells (with respect to a layout). -/
def mineCount (isMine : Cell → Bool) (l : List Cell) : ℤ :=
  ((l.filter isMine).length : ℤ)

/-- A sentence is well-formed and true for the layout: its cell set is
duplicate-free and its count is the number of mines among its cells. -/
def SentOK (isMine : Cell → Bool) (sen : Sentence) : Prop :=
  sen.cells.Nodup ∧ sen.count = mineCount isMine sen.cells

/-- The engine state only holds facts true of the layout: every recorded
mine is a mine, every recorded safe is not, every sentence is true. -/
def Sound (isMine : Cell → Bool) (s : AIState) : Prop :=
  (∀ c ∈ s.mines, isMine c = true) ∧
  (∀ c ∈ s.safes, isMine c = false) ∧
  (∀ sen ∈ s.knowledge, SentOK isMine sen)

/-- The true number of mines among the in-bounds neighbors of a cell:
what the board collaborator reports for a probe of that cell. -/
def trueCount (isMine : Cell → Bool) (s : AIState) (cell : Cell) : ℤ :=
  mineCount isMine ((cands cell).filter fun c => neighborGuard s cell c)

/-- One public engine operation.  An `ingest` step carries the inbound
contract of the spec: the probed cell was never probed before, is not a
mine, and the reported count is the true neighbor mine count. -/
inductive EngineStep (isMine : Cell → Bool) : AIState → AIState → Prop
  | ingest (s : AIState) (cell : Cell) (count : ℤ)
      (hmine : isMine cell = false)
      (hfresh : cell ∉ s.moves_made)
      (hcount : count = trueCount isMine s cell) :
      EngineStep isMine s (s.add_knowledge cell count)
  | safeMove (s : AIState) : EngineStep isMine s (s.make_safe_move).2
  | randomMove (s : AIState) (k : ℕ) : EngineStep isMine s ((s.make_random_move k).2)

/-- States reachable from a fresh engine by contract-honouring calls. -/
inductive EngineReach (isMine : Cell → Bool) (height width : ℤ) : AIState → Prop
  | start : EngineReach isMine height width (initialState height width)
  | step {s t : AIState} : EngineReach isMine height width s →
      EngineStep isMine s t → EngineReach isMine height width t

/-- The number of 8-adjacent in-bounds cells of `cell` that are recorded
mines, counted as the cardinality of a set of coordinates (spec side of
claim C9). -/
def adjMineCount (s : AIState) (cell : Cell) : ℕ :=
  ((Finset.Icc (cell.1 - 1) (cell.1 + 1) ×ˢ Finset.Icc (cell.2 - 1) (cell.2 + 1)).filter
    fun c => c ≠ cell ∧ 0 ≤ c.1 ∧ c.1 < s.height ∧ 0 ≤ c.2 ∧ c.2 < s.width ∧ c ∈ s.mines).card

/-! ### Concrete executions

Each scenario below is a run of `add_knowledge` on a small board whose
probe counts are the true counts of an explicit mine layout, so the
inbound contract of the spec holds throughout. -/

/-- Probes `(0,0)`, `(2,2)`, `(0,1)` on a 3x3 board with mines at `(1,0)`
and `(1,2)`; every count is the true neighbor mine count. -/
def exC1 : AIState :=
  (((initialState 3 3).add_knowledge (0, 0) 1).add_knowledge (2, 2) 1).add_knowledge (0, 1) 2

/-- Probes `(0,0)`, `(1,7)`, `(2,0)` on a 3x8 board with mines at
`(1,1)`, `(0,6)` and `(2,1)` (true counts). -/
def exC3pre : AIState :=
  (((initialState 3 8).add_knowledge (0, 0) 1).add_knowledge (1, 7) 1).add_knowledge (2, 0) 2

/-- The fourth probe `((0,7), 1)` of the same run, paused right after the
step-4 extraction scan: the state whose knowledge list is the snapshot
the step-5 pass iterates over. -/
def exC3mid : AIState := step4 (step3 (step12 exC3pre (0, 7)) (0, 7) 1)

/-- Probes `(0,0)`, `(1,0)`, `(0,2)` on a 3x3 board with one mine at
`(2,1)` (true counts). -/
def exC4pre : AIState :=
  (((initialState 3 3).add_knowledge (0, 0) 0).add_knowledge (1, 0) 1).add_knowledge (0, 2) 0

/-- The fourth probe `((2,2), 1)` of the same run, paused at the moment
the step-4 extraction scan completes. -/
def exC4mid : AIState := step4 (step3 (step12 exC4pre (2, 2)) (2, 2) 1)

/-- First probe `((1,0), 1)` on a 3x3 board with one mine at `(1,1)`
(true count). -/
def exC5a : AIState := (initialState 3 3).add_knowledge (1, 0) 1

/-- Second probe `((0,0), 1)` of the same run, paused at the moment the
step-5 subset-derivation pass starts. -/
def exC5pre : AIState := step4 (step3 (step12 exC5a (0, 0)) (0, 0) 1)

/-- Probes `(1,0)`, `(0,0)` on a 3x3 board with mines at `(1,1)` and
`(2,0)`; every count is the true neighbor mine count. -/
def exC7b : AIState :=
  ((initialState 3 3).add_knowledge (1, 0) 2).add_knowledge (0, 0) 1

/-- The third probe `((2,2), 1)` of the same run, paused at the moment
the step-5 subset-derivation pass starts. -/
def exC7mid : AIState := step4 (step3 (step12 exC7b (2, 2)) (2, 2) 1)

/-! ### Generic preservation lemmas -/

theorem mem_addCell_iff (l : List Cell) (c x : Cell) :
    x ∈ addCell l c ↔ x ∈ l ∨ x = c := by
  unfold addCell
  split
  · constructor
    · exact Or.inl
    · rintro (h | rfl) <;> assumption
  · simp

theorem mem_addCell_self (l : List Cell) (c : Cell) : c ∈ addCell l c :=
  (mem_addCell_iff l c c).2 (Or.inr rfl)

theorem mem_addCell_of_mem {l : List Cell} {x : Cell} (c : Cell) (h : x ∈ l) :
    x ∈ addCell l c :=
  (mem_addCell_iff l c x).2 (Or.inl h)

theorem foldl_preserve {α : Type} (P : AIState → Prop) (f : AIState → α → AIState)
    (h : ∀ s a, P s → P (f s a)) :
    ∀ (l : List α) (s : AIState), P s → P (l.foldl f s) := by
  intro l
  induction l with
  | nil => exact fun s hs => hs
  | cons a t ih => exact fun s hs => ih (f s a) (h s a hs)

theorem outerLoop_preserve (P : AIState → Prop)
    (h : ∀ sen1 l s, P s → P (innerLoop sen1 l s)) :
    ∀ (fuel : ℕ) (l : List Sentence) (idx : ℕ) (s : AIState),
      P s → P (outerLoop fuel l idx s) := by
  intro fuel
  induction fuel with
  | zero => exact fun l idx s hs => hs
  | succ n ih =>
    intro l idx s hs
    unfold outerLoop
    split
    · exact ih _ _ _ (h _ _ _ hs)
    · exact hs

/-! ### Projection facts: how each stage touches `safes` and `moves_made` -/

theorem safes_mark_safe {s : AIState} {x : Cell} (c : Cell) (h : x ∈ s.safes) :
    x ∈ (s.mark_safe c).safes :=
  mem_addCell_of_mem c h

theorem safes_mark_mine (s : AIState) (c : Cell) : (s.mark_mine c).safes = s.safes := rfl

theorem moves_mark_safe (s : AIState) (c : Cell) :
    (s.mark_safe c).moves_made = s.moves_made := rfl

theorem moves_mark_mine (s : AIState) (c : Cell) :
    (s.mark_mine c).moves_made = s.moves_made := rfl

theorem safes_step3 (s : AIState) (cell : Cell) (count : ℤ) :
    (step3 s cell count).safes = s.safes := by
  unfold step3
  split <;> rfl

theorem moves_step3 (s : AIState) (cell : Cell) (count : ℤ) :
    (step3 s cell count).moves_made = s.moves_made := by
  unfold step3
  split <;> rfl

theorem safes_scanSentence {s : AIState} {x : Cell} (i : ℕ) (h : x ∈ s.safes) :
    x ∈ (scanSentence s i).safes := by
  unfold scanSentence
  exact foldl_preserve (fun t => x ∈ t.safes) AIState.mark_mine (fun t c ht => ht) _ _
    (foldl_preserve (fun t => x ∈ t.safes) AIState.mark_safe
      (fun t c ht => safes_mark_safe c ht) _ _ h)

theorem moves_scanSentence (s : AIState) (i : ℕ) :
    (scanSentence s i).moves_made = s.moves_made := by
  unfold scanSentence
  exact foldl_preserve (fun t => t.moves_made = s.moves_made) AIState.mark_mine
    (fun t c ht => ht) _ _
    (foldl_preserve (fun t => t.moves_made = s.moves_made) AIState.mark_safe
      (fun t c ht => ht) _ _ rfl)

theorem safes_step4 {s : AIState} {x : Cell} (h : x ∈ s.safes) : x ∈ (step4 s).safes :=
  foldl_preserve (fun t => x ∈ t.safes) scanSentence
    (fun _t i ht => safes_scanSentence i ht) _ _ h

theorem moves_step4 (s : AIState) : (step4 s).moves_made = s.moves_made :=
  foldl_preserve (fun t => t.moves_made = s.moves_made) scanSentence
    (fun t i ht => (moves_scanSentence t i).trans ht) _ _ rfl

theorem safes_subtractStep {s : AIState} {x : Cell} (small big : List Cell) (dc : ℤ)
    (h : x ∈ s.safes) : x ∈ (subtractStep s small big dc).safes := by
  unfold subtractStep
  split
  · split
    · split
      · exact safes_mark_safe _ h
      · split
        · exact h
        · exact h
    · exact h
  · exact h

theorem moves_subtractStep (s : AIState) (small big : List Cell) (dc : ℤ) :
    (subtractStep s small big dc).moves_made = s.moves_made := by
  unfold subtractStep
  split
  · split
    · split
      · rfl
      · split <;> rfl
    · rfl
  · rfl

theorem safes_innerBody {s : AIState} {x : Cell} (sen1 sen2 : Sentence)
    (h : x ∈ s.safes) : x ∈ (innerBody sen1 s sen2).safes := by
  unfold innerBody
  split
  · exact safes_subtractStep _ _ _ h
  · split
    · exact safes_subtractStep _ _ _ h
    · exact h

theorem moves_innerBody (s : AIState) (sen1 sen2 : Sentence) :
    (innerBody sen1 s sen2).moves_made = s.moves_made := by
  unfold innerBody
  split
  · exact moves_subtractStep _ _ _ _
  · split
    · exact moves_subtractStep _ _ _ _
    · rfl

theorem safes_innerLoop {s : AIState} {x : Cell} (sen1 : Sentence) (l : List Sentence)
    (h : x ∈ s.safes) : x ∈ (innerLoop sen1 l s).safes :=
  foldl_preserve (fun t => x ∈ t.safes) (innerBody sen1)
    (fun _t sen2 ht => safes_innerBody sen1 sen2 ht) _ _ h

theorem moves_innerLoop (sen1 : Sentence) (l : List Sentence) (s : AIState) :
    (innerLoop sen1 l s).moves_made = s.moves_made :=
  foldl_preserve (fun t => t.moves_made = s.moves_made) (innerBody sen1)
    (fun t sen2 ht => (moves_innerBody t sen1 sen2).trans ht) _ _ rfl

theorem safes_step5 {s : AIState} {x : Cell} (h : x ∈ s.safes) : x ∈ (step5 s).safes :=
  outerLoop_preserve (fun t => x ∈ t.safes)
    (fun sen1 l _t ht => safes_innerLoop sen1 l ht) _ _ _ _ h

theorem moves_step5 (s : AIState) : (step5 s).moves_made = s.moves_made :=
  outerLoop_preserve (fun t => t.moves_made = s.moves_made)
    (fun sen1 l t ht => (moves_innerLoop sen1 l t).trans ht) _ _ _ _ rfl

theorem safes_add_knowledge (s : AIState) (cell : Cell) (count : ℤ) :
    cell ∈ (s.add_knowledge cell count).safes := by
  unfold AIState.add_knowledge
  refine safes_step5 (safes_step4 ?_)
  rw [safes_step3]
  exact mem_addCell_self _ _

theorem moves_add_knowledge (s : AIState) (cell : Cell) (count : ℤ) :
    (s.add_knowledge cell count).moves_made = addCell s.moves_made cell := by
  unfold AIState.add_knowledge
  rw [moves_step5, moves_step4, moves_step3]
  rfl

/-! ### Claim C1 -/

/-- C1 counterexample: on a 3x3 board with mines at `(1,0)` and `(1,2)`,
after the contract-honouring probes `((0,0),1)`, `((2,2),1)`, `((0,1),2)`
the probed cell `(0,1)` is in `safes` and still occurs in the first
sentence's cell set: `ingest` did not apply `resolveAsSafe((0,1))` to the
knowledge, contradicting the claim that after step 2 the cell no longer
appears in any sentence. -/
theorem c1_counterexample :
    (0, 1) ∈ exC1.safes ∧ (0, 1) ∈ (exC1.knowledge.getD 0 ⟨[], 0⟩).cells := by decide

/-- C1 amended: step 2 of `ingest` adds the probed cell to `safes` (and
step 1 to `movesMade`), and the cell stays in `safes`; but no
`resolveAsSafe` propagation over the knowledge takes place. -/
theorem c1_amended (s : AIState) (cell : Cell) (count : ℤ) :
    cell ∈ (s.add_knowledge cell count).safes :=
  safes_add_knowledge s cell count

/-! ### Claim C3 -/

/-- C3: at the fourth probe of a contract-honouring run the step-5
snapshot holds four sentences in which the sentence at index 3 is a
two-cell subset of the five-cell sentence at index 1, yet after the pass
the subtraction result of that pair, the sentence
`{(0,7),(2,6),(2,7)} = 0`, is nowhere in the knowledge: the pair of two
odd-indexed sentences is never examined, because removing the current
element during iteration makes the outer loop skip every second element. -/
theorem c3_code_evaluation :
    exC3mid.knowledge.length = 4 ∧
    listSubset (exC3mid.knowledge.getD 3 ⟨[], 0⟩).cells
      (exC3mid.knowledge.getD 1 ⟨[], 0⟩).cells = true ∧
    (exC3mid.knowledge.getD 3 ⟨[], 0⟩).cells.length = 2 ∧
    (exC3mid.knowledge.getD 1 ⟨[], 0⟩).cells.length = 5 ∧
    (∀ sen ∈ (step5 exC3mid).knowledge,
      sentEq sen ⟨[(0, 7), (2, 6), (2, 7)], 0⟩ = false) := by decide

/-! ### Claim C4 -/

/-- C4: at the moment the step-4 extraction scan of the fourth probe
completes, the knowledge holds the sentence `{(2,0)} = 0` whose
`known_safes` cell `(2,0)` is not in `safes` — a further full scan would
yield a new fact — and the violation persists to the end of the call. -/
theorem c4_code_evaluation :
    exC4mid.knowledge.getD 1 ⟨[], 0⟩ = ⟨[(2, 0)], 0⟩ ∧
    (2, 0) ∉ exC4mid.safes ∧
    (∃ sen ∈ exC4mid.knowledge, ∃ c ∈ sen.known_safes, c ∉ exC4mid.safes) ∧
    (∃ sen ∈ (step5 exC4mid).knowledge,
      ∃ c ∈ sen.known_safes, c ∉ (step5 exC4mid).safes) := by decide

/-! ### Claim C5 -/

/-- C5 counterexample: on a 3x3 board with one mine at `(1,1)`, after the
probes `((1,0),1)` and `((0,0),1)` the subset-derivation pass appends the
sentence `{(0,0),(2,0),(2,1)} = 0` while `(0,0)` is already in `safes`
(it is the probed cell, recorded at step 2 of the same call, and `safes`
does not change during the pass). -/
theorem c5_counterexample :
    (0, 0) ∈ exC5pre.safes ∧ exC5pre.knowledge.length = 2 ∧
    (step5 exC5pre).knowledge.length = 3 ∧
    (0, 0) ∈ ((step5 exC5pre).knowledge.getD 2 ⟨[], 0⟩).cells ∧
    (step5 exC5pre).safes = exC5pre.safes := by decide

/-- C5 amended: the probe-derived sentence of step 3 does satisfy the
claim — each of its cells avoids both `mines` and `safes` of the state at
the moment of the append (the state after steps 1-2); derived sentences
appended by the snapshot-based pass need not. -/
theorem c5_amended (s : AIState) (cell : Cell) (c : Cell)
    (hc : c ∈ ((step12 s cell).neighbors_to_cell cell).1) :
    c ∉ (step12 s cell).mines ∧ c ∉ (step12 s cell).safes := by
  unfold AIState.neighbors_to_cell at hc
  simp only [List.mem_filter, Bool.and_eq_true, decide_eq_true_eq] at hc
  exact hc.2

/-- C5 witness: the amended statement at a concrete input. -/
theorem c5_witness :
    (0, 1) ∉ (step12 (initialState 3 3) (0, 0)).mines ∧
    (0, 1) ∉ (step12 (initialState 3 3) (0, 0)).safes :=
  c5_amended (initialState 3 3) (0, 0) (0, 1) (by decide)

/-! ### Claim C6 -/

/-- C6 counterexample: on a fresh 1x1 engine, `make_random_move` returns
`(0,0)` and records it into `moves_made` while `safes` stays empty, so
`movesMade ⊆ safes` does not survive this public operation. -/
theorem c6_counterexample :
    ((initialState 1 1).make_random_move 0).1 = some (0, 0) ∧
    (0, 0) ∈ (((initialState 1 1).make_random_move 0).2).moves_made ∧
    (0, 0) ∉ (((initialState 1 1).make_random_move 0).2).safes := by decide

/-- C6 amended: `add_knowledge` and `make_safe_move` do preserve
`movesMade ⊆ safes`; only `make_random_move` can break it (until the
subsequent probe of the chosen cell is ingested). -/
theorem c6_amended (s : AIState) (cell : Cell) (count : ℤ)
    (h : ∀ x ∈ s.moves_made, x ∈ s.safes) :
    (∀ x ∈ (s.add_knowledge cell count).moves_made,
      x ∈ (s.add_knowledge cell count).safes) ∧
    (∀ x ∈ (s.make_safe_move).2.moves_made, x ∈ (s.make_safe_move).2.safes) := by
  constructor
  · intro x hx
    rw [moves_add_knowledge, mem_addCell_iff] at hx
    rcases hx with hx | rfl
    · refine ?_
      unfold AIState.add_knowledge
      refine safes_step5 (safes_step4 ?_)
      rw [safes_step3]
      exact mem_addCell_of_mem _ (h x hx)
    · exact safes_add_knowledge s x count
  · intro x hx
    unfold AIState.make_safe_move at hx ⊢
    cases hfind : s.safes.find? (fun c => decide (c ∉ s.moves_made)) with
    | none => rw [hfind] at hx; exact h x hx
    | some c =>
      rw [hfind] at hx
      rcases (mem_addCell_iff _ _ _).1 hx with hx2 | rfl
      · exact h x hx2
      · exact List.mem_of_find?_eq_some hfind

/-- C6 witness: the amended statement at a concrete input. -/
theorem c6_witness :
    (0, 0) ∈ ((initialState 2 2).add_knowledge (0, 0) 0).safes :=
  (c6_amended (initialState 2 2) (0, 0) 0 (by decide)).1 (0, 0) (by decide)

/-! ### Claim C7 -/

/-- C7 counterexample: on a 3x3 board with mines at `(1,1)` and `(2,0)`,
after the contract-honouring probes `((1,0),2)`, `((0,0),1)` the sentence
`{(0,0),(2,0),(2,1)} = 1` is in the knowledge (index 2); the third probe
`((2,2),1)` re-derives it from the same pair and appends a structurally
equal copy (index 4) — the derivation pass has no duplicate check. -/
theorem c7_counterexample :
    exC7mid.knowledge.length = 4 ∧
    exC7mid.knowledge.getD 2 ⟨[], 0⟩ = ⟨[(0, 0), (2, 0), (2, 1)], 1⟩ ∧
    (step5 exC7mid).knowledge.length = 6 ∧
    (step5 exC7mid).knowledge.getD 4 ⟨[], 0⟩ = ⟨[(0, 0), (2, 0), (2, 1)], 1⟩ ∧
    (step5 exC7mid).knowledge.take 4 = exC7mid.knowledge := by decide

/-- C7 amended: step 4 of `ingest` does suppress duplicates of the
probe-derived sentence — it is appended exactly when no structurally
equal sentence is present; the subset-derivation pass appends its derived
sentences without any such check. -/
theorem c7_amended (s : AIState) (cell : Cell) (count : ℤ) :
    (s.knowledge.any (fun t => sentEq (probeSentence s cell count) t) = true ∧
      (step3 s cell count).knowledge = s.knowledge) ∨
    (s.knowledge.any (fun t => sentEq (probeSentence s cell count) t) = false ∧
      (step3 s cell count).knowledge = s.knowledge ++ [probeSentence s cell count]) := by
  unfold step3
  by_cases hany : s.knowledge.any (fun t => sentEq (probeSentence s cell count) t) = true
  · exact Or.inl ⟨hany, by rw [if_pos hany]⟩
  · exact Or.inr ⟨by simpa using hany, by rw [if_neg hany]⟩

/-! ### Claim C8 -/

/-- C8 counterexample: a malformed call (`count = -5` on a fresh 3x3
engine) is not rejected: the state changes, and the inconsistent data is
absorbed as the sentence `{(0,1),(1,0),(1,1)} = -5`. -/
theorem c8_counterexample :
    ((initialState 3 3).add_knowledge (0, 0) (-5)).knowledge =
      [⟨[(0, 1), (1, 0), (1, 1)], -5⟩] ∧
    ((initialState 3 3).add_knowledge (0, 0) (-5)).moves_made = [(0, 0)] := by decide

/-- C8 amended: `add_knowledge` performs no input validation and signals
no error: every call, malformed or not, is absorbed — the probed cell is
recorded into `moves_made` exactly as for a well-formed call. -/
theorem c8_amended (s : AIState) (cell : Cell) (count : ℤ) :
    (s.add_knowledge cell count).moves_made = addCell s.moves_made cell :=
  moves_add_knowledge s cell count

/-! ### Claim C9 -/

/-- Membership in the nine loop candidates is exactly 8-adjacency (the
cell itself included, at offset zero). -/
theorem mem_cands_iff (cell c : Cell) :
    c ∈ cands cell ↔ (cell.1 - c.1).natAbs ≤ 1 ∧ (cell.2 - c.2).natAbs ≤ 1 := by
  simp only [cands, offsets, List.map_cons, List.map_nil, List.mem_cons,
    List.not_mem_nil, or_false, Prod.ext_iff]
  omega

/-- Membership in the candidates, interval form. -/
theorem mem_cands_iff_Icc (cell c : Cell) :
    c ∈ cands cell ↔
      (cell.1 - 1 ≤ c.1 ∧ c.1 ≤ cell.1 + 1) ∧ (cell.2 - 1 ≤ c.2 ∧ c.2 ≤ cell.2 + 1) := by
  simp only [cands, offsets, List.map_cons, List.map_nil, List.mem_cons,
    List.not_mem_nil, or_false, Prod.ext_iff]
  omega

/-- The nine candidates are pairwise distinct. -/
theorem cands_nodup (cell : Cell) : (cands cell).Nodup := by
  refine List.Nodup.map ?_ (by decide)
  intro a b hab
  rw [Prod.mk.injEq] at hab
  rw [Prod.ext_iff]
  omega

/-- C9: `neighbors_to_cell` returns exactly the in-bounds 8-adjacent
cells of `cell` other than `cell` itself and not in `mines` or `safes`;
its tally is the number of in-bounds 8-adjacent recorded mines; and the
result does not depend on `moves_made` at all (the source's identity
comparison against the `moves_made` container is always true, hence dead). -/
theorem c9_neighbors_characterization (s : AIState) (cell : Cell) :
    (∀ c : Cell, c ∈ (s.neighbors_to_cell cell).1 ↔
      ((cell.1 - c.1).natAbs ≤ 1 ∧ (cell.2 - c.2).natAbs ≤ 1 ∧ c ≠ cell ∧
        0 ≤ c.1 ∧ c.1 < s.height ∧ 0 ≤ c.2 ∧ c.2 < s.width ∧
        c ∉ s.mines ∧ c ∉ s.safes)) ∧
    (s.neighbors_to_cell cell).2 = (adjMineCount s cell : ℤ) ∧
    (∀ mm : List Cell,
      AIState.neighbors_to_cell { s with moves_made := mm } cell = s.neighbors_to_cell cell) := by
  refine ⟨fun c => ?_, ?_, fun mm => rfl⟩
  · unfold AIState.neighbors_to_cell
    simp only [List.mem_filter, Bool.and_eq_true, decide_eq_true_eq, neighborGuard,
      inBounds, mem_cands_iff]
    tauto
  · have hnd : (((cands cell).filter fun c => neighborGuard s cell c).filter
        fun c => decide (c ∈ s.mines)).Nodup :=
      ((cands_nodup cell).filter _).filter _
    have hset : (((cands cell).filter fun c => neighborGuard s cell c).filter
          fun c => decide (c ∈ s.mines)).toFinset
        = (Finset.Icc (cell.1 - 1) (cell.1 + 1) ×ˢ Finset.Icc (cell.2 - 1) (cell.2 + 1)).filter
            (fun c => c ≠ cell ∧ 0 ≤ c.1 ∧ c.1 < s.height ∧ 0 ≤ c.2 ∧ c.2 < s.width ∧
              c ∈ s.mines) := by
      ext c
      simp only [List.mem_toFinset, List.mem_filter, Finset.mem_filter, Finset.mem_product,
        Finset.mem_Icc, neighborGuard, inBounds, Bool.and_eq_true, decide_eq_true_eq,
        mem_cands_iff_Icc]
      tauto
    have hcard : (((cands cell).filter fun c => neighborGuard s cell c).filter
        fun c => decide (c ∈ s.mines)).length = adjMineCount s cell := by
      rw [← List.toFinset_card_of_nodup hnd, hset]
      rfl
    exact congrArg Int.ofNat hcard

/-! ### Claim C10 -/

/-- C10: `make_safe_move` returns a cell of `safes \ movesMade` exactly
when that set is non-empty, returns nothing otherwise; the only state
change is recording the returned cell into `moves_made`, while `mines`,
`safes` and every sentence of `knowledge` are untouched. -/
theorem c10_make_safe_move_spec (s : AIState) :
    ((s.make_safe_move).1 = none ↔ ∀ c ∈ s.safes, c ∈ s.moves_made) ∧
    (∀ c : Cell, (s.make_safe_move).1 = some c →
      c ∈ s.safes ∧ c ∉ s.moves_made ∧
      (s.make_safe_move).2.moves_made = addCell s.moves_made c) ∧
    ((s.make_safe_move).1 = none → (s.make_safe_move).2 = s) ∧
    (s.make_safe_move).2.mines = s.mines ∧
    (s.make_safe_move).2.safes = s.safes ∧
    (s.make_safe_move).2.knowledge = s.knowledge := by
  unfold AIState.make_safe_move
  cases hfind : s.safes.find? (fun c => decide (c ∉ s.moves_made)) with
  | none =>
    have hall : ∀ c ∈ s.safes, c ∈ s.moves_made := by
      intro c hc
      have h2 := List.find?_eq_none.1 hfind c hc
      simpa using h2
    exact ⟨⟨fun _ => hall, fun _ => rfl⟩, fun c h => Option.noConfusion h,
      fun _ => rfl, rfl, rfl, rfl⟩
  | some c0 =>
    have hmem : c0 ∈ s.safes := List.mem_of_find?_eq_some hfind
    have hnot : c0 ∉ s.moves_made := by simpa using List.find?_some hfind
    refine ⟨⟨fun h => Option.noConfusion h, fun hall => absurd (hall c0 hmem) hnot⟩,
      ?_, fun h => Option.noConfusion h, rfl, rfl, rfl⟩
    intro c h
    injection h with h2
    subst h2
    exact ⟨hmem, hnot, rfl⟩

/-- C10 witness: the returning case at a concrete state. -/
theorem c10_witness :
    (0, 0) ∈ (AIState.mk 2 2 [] [] [(0, 0)] []).safes ∧
    (0, 0) ∉ (AIState.mk 2 2 [] [] [(0, 0)] []).moves_made ∧
    ((AIState.mk 2 2 [] [] [(0, 0)] []).make_safe_move).2.moves_made
      = addCell (AIState.mk 2 2 [] [] [(0, 0)] []).moves_made (0, 0) :=
  (c10_make_safe_move_spec (AIState.mk 2 2 [] [] [(0, 0)] [])).2.1 (0, 0) (by decide)

/-! ### Claim C2: soundness of every engine operation

Every fact the engine ever records is true of the mine layout, provided
every `ingest` satisfies the inbound contract; disjointness of `mines`
and `safes` follows. -/

theorem foldl_preserve_mem {α : Type} (P : AIState → Prop) (f : AIState → α → AIState) :
    ∀ (l : List α), (∀ s a, a ∈ l → P s → P (f s a)) →
      ∀ (s : AIState), P s → P (l.foldl f s) := by
  intro l
  induction l with
  | nil => exact fun _ s hs => hs
  | cons a t ih =>
    intro h s hs
    exact ih (fun s2 b hb => h s2 b (List.mem_cons_of_mem a hb)) (f s a)
      (h s a (List.mem_cons_self a t) hs)

theorem filter_erase_of_neg {p : Cell → Bool} {c : Cell} (hc : p c = false) :
    ∀ l : List Cell, (l.erase c).filter p = l.filter p := by
  intro l
  induction l with
  | nil => rfl
  | cons x xs ih =>
    rw [List.erase_cons]
    by_cases hx : x = c
    · subst hx
      simp [List.filter_cons, hc]
    · have hbeq : (x == c) = false := beq_eq_false_iff_ne.2 hx
      rw [hbeq]
      simp only [Bool.false_eq_true, if_false]
      rw [List.filter_cons, List.filter_cons, ih]

theorem length_filter_erase_of_pos {p : Cell → Bool} {c : Cell} (hc : p c = true) :
    ∀ l : List Cell, c ∈ l → ((l.erase c).filter p).length + 1 = (l.filter p).length := by
  intro l
  induction l with
  | nil => intro h; cases h
  | cons x xs ih =>
    intro hmem
    rw [List.erase_cons]
    by_cases hx : x = c
    · subst hx
      have hbeq : (x == x) = true := beq_self_eq_true x
      rw [hbeq]
      simp [List.filter_cons, hc]
    · have hcx : c ∈ xs := by
        rcases List.mem_cons.1 hmem with h | h
        · exact absurd h.symm hx
        · exact h
      have hbeq : (x == c) = false := beq_eq_false_iff_ne.2 hx
      rw [hbeq]
      simp only [Bool.false_eq_true, if_false]
      rw [List.filter_cons, List.filter_cons]
      cases hpx : p x
      · simp only [Bool.false_eq_true, if_false]
        exact ih hcx
      · simp only [if_true, List.length_cons]
        have := ih hcx
        omega

theorem sentOK_mark_safe {isMine : Cell → Bool} {sen : Sentence} (c : Cell)
    (hc : isMine c = false) (hOK : SentOK isMine sen) : SentOK isMine (sen.mark_safe c) := by
  unfold Sentence.mark_safe
  split
  · constructor
    · exact hOK.1.erase c
    · show sen.count = mineCount isMine (sen.cells.erase c)
      unfold mineCount
      rw [filter_erase_of_neg hc]
      exact hOK.2
  · exact hOK

theorem sentOK_mark_mine {isMine : Cell → Bool} {sen : Sentence} (c : Cell)
    (hc : isMine c = true) (hOK : SentOK isMine sen) : SentOK isMine (sen.mark_mine c) := by
  unfold Sentence.mark_mine
  split
  · rename_i hmem
    constructor
    · exact hOK.1.erase c
    · show sen.count - 1 = mineCount isMine (sen.cells.erase c)
      have h1 := length_filter_erase_of_pos hc sen.cells hmem
      have h2 := hOK.2
      unfold mineCount at h2 ⊢
      omega
  · exact hOK

theorem known_safes_sound {isMine : Cell → Bool} {sen : Sentence} (hOK : SentOK isMine sen) :
    ∀ c ∈ sen.known_safes, isMine c = false := by
  intro c hc
  unfold Sentence.known_safes at hc
  split at hc
  · rename_i hcount
    have h2 := hOK.2
    rw [hcount] at h2
    unfold mineCount at h2
    have hnil : sen.cells.filter isMine = [] := by
      have : (sen.cells.filter isMine).length = 0 := by omega
      exact List.length_eq_zero.1 this
    have := (List.filter_eq_nil_iff.1 hnil) c hc
    simpa using this
  · cases hc

theorem known_mines_sound {isMine : Cell → Bool} {sen : Sentence} (hOK : SentOK isMine sen) :
    ∀ c ∈ sen.known_mines, isMine c = true := by
  intro c hc
  unfold Sentence.known_mines at hc
  split at hc
  · rename_i hcount
    have h2 := hOK.2
    unfold mineCount at h2
    have hlen : (sen.cells.filter isMine).length = sen.cells.length := by omega
    have heq : sen.cells.filter isMine = sen.cells :=
      (List.filter_sublist sen.cells).eq_of_length hlen
    exact (List.filter_eq_self.1 heq) c hc
  · cases hc

theorem sound_mark_safe {isMine : Cell → Bool} {s : AIState} (c : Cell)
    (hc : isMine c = false) (hS : Sound isMine s) : Sound isMine (s.mark_safe c) := by
  refine ⟨hS.1, ?_, ?_⟩
  · intro x hx
    rcases (mem_addCell_iff _ _ _).1 hx with hx | rfl
    · exact hS.2.1 x hx
    · exact hc
  · intro sen hsen
    rcases List.mem_map.1 hsen with ⟨sen0, hsen0, rfl⟩
    exact sentOK_mark_safe c hc (hS.2.2 sen0 hsen0)

theorem sound_mark_mine {isMine : Cell → Bool} {s : AIState} (c : Cell)
    (hc : isMine c = true) (hS : Sound isMine s) : Sound isMine (s.mark_mine c) := by
  refine ⟨?_, hS.2.1, ?_⟩
  · intro x hx
    rcases (mem_addCell_iff _ _ _).1 hx with hx | rfl
    · exact hS.1 x hx
    · exact hc
  · intro sen hsen
    rcases List.mem_map.1 hsen with ⟨sen0, hsen0, rfl⟩
    exact sentOK_mark_mine c hc (hS.2.2 sen0 hsen0)

theorem sound_scanSentence {isMine : Cell → Bool} {s : AIState} (i : ℕ)
    (hS : Sound isMine s) : Sound isMine (scanSentence s i) := by
  have hsen : (∀ c ∈ (s.knowledge.getD i ⟨[], 0⟩).known_safes, isMine c = false) ∧
      (∀ c ∈ (s.knowledge.getD i ⟨[], 0⟩).known_mines, isMine c = true) := by
    by_cases h : i < s.knowledge.length
    · have hmem : s.knowledge.getD i ⟨[], 0⟩ ∈ s.knowledge := by
        rw [List.getD_eq_getElem _ _ h]
        exact List.getElem_mem h
      have hOK := hS.2.2 _ hmem
      exact ⟨known_safes_sound hOK, known_mines_sound hOK⟩
    · rw [List.getD_eq_default _ _ (le_of_not_lt h)]
      constructor <;> intro c hc <;> cases hc
  unfold scanSentence
  exact foldl_preserve_mem (Sound isMine) AIState.mark_mine _
    (fun t a ha ht => sound_mark_mine a (hsen.2 a ha) ht) _
    (foldl_preserve_mem (Sound isMine) AIState.mark_safe _
      (fun t a ha ht => sound_mark_safe a (hsen.1 a ha) ht) _ hS)

theorem sound_step4 {isMine : Cell → Bool} {s : AIState} (hS : Sound isMine s) :
    Sound isMine (step4 s) :=
  foldl_preserve (Sound isMine) scanSentence (fun _t i ht => sound_scanSentence i ht) _ _ hS

theorem length_filter_partition (isMine : Cell → Bool) (mines safes : List Cell)
    (h1 : ∀ c ∈ mines, isMine c = true) (h2 : ∀ c ∈ safes, isMine c = false) :
    ∀ T : List Cell,
      (T.filter isMine).length
        = (T.filter fun c => decide (c ∈ mines)).length
          + ((T.filter fun c => decide (c ∉ mines) && decide (c ∉ safes)).filter isMine).length := by
  intro T
  induction T with
  | nil => rfl
  | cons x xs ih =>
    by_cases hxm : x ∈ mines
    · have hx := h1 x hxm
      have hd1 : decide (x ∈ mines) = true := decide_eq_true hxm
      have hd2 : decide (x ∉ mines) = false := decide_eq_false (not_not_intro hxm)
      simp only [List.filter_cons, hx, hd1, hd2, Bool.false_and, eq_self_iff_true,
        if_true, Bool.false_eq_true, if_false, List.length_cons]
      omega
    · have hd1 : decide (x ∈ mines) = false := decide_eq_false hxm
      have hd2 : decide (x ∉ mines) = true := decide_eq_true hxm
      by_cases hxs : x ∈ safes
      · have hx := h2 x hxs
        have hd3 : decide (x ∉ safes) = false := decide_eq_false (not_not_intro hxs)
        simp only [List.filter_cons, hx, hd1, hd2, hd3, Bool.true_and, eq_self_iff_true,
          if_true, Bool.false_eq_true, if_false, List.length_cons]
        exact ih
      · have hd3 : decide (x ∉ safes) = true := decide_eq_true hxs
        cases hx : isMine x
        · simp only [List.filter_cons, hx, hd1, hd2, hd3, Bool.true_and, eq_self_iff_true,
            if_true, Bool.false_eq_true, if_false, List.length_cons]
          exact ih
        · simp only [List.filter_cons, hx, hd1, hd2, hd3, Bool.true_and, eq_self_iff_true,
            if_true, Bool.false_eq_true, if_false, List.length_cons]
          omega

theorem probeSentence_ok {isMine : Cell → Bool} {s : AIState} (cell : Cell) (count : ℤ)
    (hS : Sound isMine s) (hcount : count = trueCount isMine s cell) :
    SentOK isMine (probeSentence s cell count) := by
  constructor
  · exact ((cands_nodup cell).filter _).filter _
  · show count - (s.neighbors_to_cell cell).2
      = mineCount isMine (s.neighbors_to_cell cell).1
    have hpart := length_filter_partition isMine s.mines s.safes hS.1 hS.2.1
      ((cands cell).filter fun c => neighborGuard s cell c)
    have hgoal : count - ((((cands cell).filter fun c => neighborGuard s cell c).filter
          fun c => decide (c ∈ s.mines)).length : ℤ)
        = (((((cands cell).filter fun c => neighborGuard s cell c).filter
            fun c => decide (c ∉ s.mines) && decide (c ∉ s.safes)).filter isMine).length : ℤ) := by
      unfold trueCount mineCount at hcount
      omega
    exact hgoal

theorem sound_step12 {isMine : Cell → Bool} {s : AIState} (cell : Cell)
    (hc : isMine cell = false) (hS : Sound isMine s) : Sound isMine (step12 s cell) := by
  refine ⟨hS.1, ?_, hS.2.2⟩
  intro x hx
  rcases (mem_addCell_iff _ _ _).1 hx with hx | rfl
  · exact hS.2.1 x hx
  · exact hc

theorem sound_step3 {isMine : Cell → Bool} {s : AIState} (cell : Cell) (count : ℤ)
    (hOK : SentOK isMine (probeSentence s cell count)) (hS : Sound isMine s) :
    Sound isMine (step3 s cell count) := by
  unfold step3
  split
  · exact hS
  · refine ⟨hS.1, hS.2.1, ?_⟩
    intro sen hsen
    rcases List.mem_append.1 hsen with h | h
    · exact hS.2.2 sen h
    · rcases List.mem_singleton.1 h with rfl
      exact hOK

theorem mineCount_subset_split (isMine : Cell → Bool) {big small : List Cell}
    (hbnd : big.Nodup) (hsnd : small.Nodup) (hsub : listSubset small big = true) :
    (big.filter isMine).length
      = (small.filter isMine).length + ((setDiff big small).filter isMine).length := by
  have hperm := List.filter_append_perm (fun c => decide (c ∈ small)) (big.filter isMine)
  have hlen : ((big.filter isMine).filter fun c => decide (c ∈ small)).length
      + ((big.filter isMine).filter fun c => !decide (c ∈ small)).length
      = (big.filter isMine).length := by
    have h3 := hperm.length_eq
    simpa using h3
  have hmemiff : ∀ a : Cell, a ∈ (big.filter isMine).filter (fun c => decide (c ∈ small))
      ↔ a ∈ small.filter isMine := by
    intro a
    simp only [List.mem_filter, decide_eq_true_eq]
    constructor
    · rintro ⟨⟨_hb, hm⟩, hsm⟩
      exact ⟨hsm, hm⟩
    · rintro ⟨hsm, hm⟩
      have hab : a ∈ big := by
        have h4 := (List.all_eq_true.1 hsub) a hsm
        simpa using h4
      exact ⟨⟨hab, hm⟩, hsm⟩
  have hperm2 : ((big.filter isMine).filter fun c => decide (c ∈ small)).Perm
      (small.filter isMine) :=
    (List.perm_ext_iff_of_nodup ((hbnd.filter _).filter _) (hsnd.filter _)).2 hmemiff
  have hcomm : ((big.filter isMine).filter fun c => !decide (c ∈ small))
      = (setDiff big small).filter isMine := by
    unfold setDiff
    rw [List.filter_filter, List.filter_filter]
    apply List.filter_congr
    intro a _ha
    simp [Bool.and_comm]
  rw [hcomm] at hlen
  rw [hperm2.length_eq] at hlen
  omega

theorem sound_subtractStep {isMine : Cell → Bool} {s : AIState} (s1 s2 : Sentence)
    (h1 : SentOK isMine s1) (h2 : SentOK isMine s2) (hS : Sound isMine s) :
    Sound isMine (subtractStep s s2.cells s1.cells (s1.count - s2.count)) := by
  unfold subtractStep
  split
  · rename_i hsub
    have hdiffOK : s1.count - s2.count = mineCount isMine (setDiff s1.cells s2.cells) := by
      have hsplit := mineCount_subset_split isMine h1.1 h2.1 hsub
      have e1 := h1.2
      have e2 := h2.2
      unfold mineCount at e1 e2 ⊢
      omega
    split
    · rename_i hlen
      rcases List.length_eq_one.1 hlen with ⟨c, hc⟩
      rw [hc] at hdiffOK ⊢
      split
      · rename_i hdc0
        have hmc : isMine c = false := by
          cases hm : isMine c
          · rfl
          · exfalso
            rw [hdc0] at hdiffOK
            unfold mineCount at hdiffOK
            simp [List.filter_cons, hm] at hdiffOK
        exact sound_mark_safe _ hmc hS
      · split
        · rename_i hdc1
          have hmc : isMine c = true := by
            cases hm : isMine c
            · exfalso
              rw [hdc1] at hdiffOK
              unfold mineCount at hdiffOK
              simp [List.filter_cons, hm] at hdiffOK
            · rfl
          exact sound_mark_mine _ hmc hS
        · exact hS
    · refine ⟨hS.1, hS.2.1, ?_⟩
      intro sen hsen
      rcases List.mem_append.1 hsen with h | h
      · exact hS.2.2 sen h
      · rcases List.mem_singleton.1 h with rfl
        exact ⟨h1.1.filter _, hdiffOK⟩
  · exact hS

theorem sound_innerBody {isMine : Cell → Bool} (sen1 sen2 : Sentence) {s : AIState}
    (h1 : SentOK isMine sen1) (h2 : SentOK isMine sen2) (hS : Sound isMine s) :
    Sound isMine (innerBody sen1 s sen2) := by
  unfold innerBody
  split
  · exact sound_subtractStep sen1 sen2 h1 h2 hS
  · split
    · exact sound_subtractStep sen2 sen1 h2 h1 hS
    · exact hS

theorem sound_innerLoop {isMine : Cell → Bool} (sen1 : Sentence) (l : List Sentence)
    {s : AIState} (h1 : SentOK isMine sen1) (hl : ∀ x ∈ l, SentOK isMine x)
    (hS : Sound isMine s) : Sound isMine (innerLoop sen1 l s) :=
  foldl_preserve_mem (Sound isMine) (innerBody sen1) l
    (fun _t a ha ht => sound_innerBody sen1 a h1 (hl a ha) ht) s hS

theorem removeFirst_subset (a : Sentence) :
    ∀ (l : List Sentence), ∀ x ∈ removeFirst l a, x ∈ l := by
  intro l
  induction l with
  | nil => intro x hx; cases hx
  | cons y ys ih =>
    intro x hx
    unfold removeFirst at hx
    split at hx
    · exact List.mem_cons_of_mem y hx
    · rcases List.mem_cons.1 hx with heq | hx
      · exact List.mem_cons.2 (Or.inl heq)
      · exact List.mem_cons_of_mem y (ih x hx)

theorem sound_outerLoop {isMine : Cell → Bool} :
    ∀ (fuel : ℕ) (l : List Sentence) (idx : ℕ) (s : AIState),
      (∀ x ∈ l, SentOK isMine x) → Sound isMine s →
      Sound isMine (outerLoop fuel l idx s) := by
  intro fuel
  induction fuel with
  | zero => exact fun l idx s _ hS => hS
  | succ n ih =>
    intro l idx s hl hS
    unfold outerLoop
    split
    · rename_i h
      exact ih _ _ _ (fun x hx => hl x (removeFirst_subset _ _ x hx))
        (sound_innerLoop _ _ (hl _ (l.get_mem _ h))
          (fun x hx => hl x (removeFirst_subset _ _ x hx)) hS)
    · exact hS

theorem sound_step5 {isMine : Cell → Bool} {s : AIState} (hS : Sound isMine s) :
    Sound isMine (step5 s) :=
  sound_outerLoop _ _ _ _ hS.2.2 hS

theorem sound_add_knowledge {isMine : Cell → Bool} {s : AIState} {cell : Cell} {count : ℤ}
    (hS : Sound isMine s) (hmine : isMine cell = false)
    (hcount : count = trueCount isMine s cell) :
    Sound isMine (s.add_knowledge cell count) := by
  have h12 := sound_step12 cell hmine hS
  have hOK : SentOK isMine (probeSentence (step12 s cell) cell count) :=
    probeSentence_ok cell count h12 hcount
  exact sound_step5 (sound_step4 (sound_step3 cell count hOK h12))

theorem sound_make_safe_move {isMine : Cell → Bool} {s : AIState} (hS : Sound isMine s) :
    Sound isMine (s.make_safe_move).2 := by
  unfold AIState.make_safe_move
  cases hfind : s.safes.find? (fun c => decide (c ∉ s.moves_made)) with
  | none => exact hS
  | some c => exact ⟨hS.1, hS.2.1, hS.2.2⟩

theorem sound_make_random_move {isMine : Cell → Bool} {s : AIState} (k : ℕ)
    (hS : Sound isMine s) : Sound isMine ((s.make_random_move k)).2 := by
  unfold AIState.make_random_move
  split
  · exact hS
  · exact ⟨hS.1, hS.2.1, hS.2.2⟩

theorem sound_of_reach {isMine : Cell → Bool} {height width : ℤ} {s : AIState}
    (hr : EngineReach isMine height width s) : Sound isMine s := by
  induction hr with
  | start =>
    exact ⟨fun c hc => absurd hc (List.not_mem_nil c),
      fun c hc => absurd hc (List.not_mem_nil c),
      fun sen hsen => absurd hsen (List.not_mem_nil sen)⟩
  | step _hprev hstep ih =>
    cases hstep with
    | ingest cell count hmine _hfresh hcount => exact sound_add_knowledge ih hmine hcount
    | safeMove => exact sound_make_safe_move ih
    | randomMove k => exact sound_make_random_move k ih

/-- C2: along any run of `add_knowledge`, `make_safe_move` and
`make_random_move` whose every `add_knowledge` call honours the inbound
contract (fresh, non-mine cell, true neighbor count), the sets `mines`
and `safes` stay disjoint at every observable point. -/
theorem c2_mines_safes_disjoint (isMine : Cell → Bool) (height width : ℤ) (s : AIState)
    (hr : EngineReach isMine height width s) : ∀ c ∈ s.mines, c ∉ s.safes := by
  intro c hcm hcs
  have hS := sound_of_reach hr
  have h1 := hS.1 c hcm
  have h2 := hS.2.1 c hcs
  rw [h1] at h2
  exact Bool.noConfusion h2

/-- C2 witness: the disjointness at the end of the concrete
contract-honouring run of claim C4's scenario (board 3x3, single mine at
`(2,1)`), where `mines` is non-empty. -/
theorem c2_witness :
    decide ((2, 1) ∈ (exC4pre.add_knowledge (2, 2) 1).safes) = false :=
  decide_eq_false
    (c2_mines_safes_disjoint (fun c => decide (c = (2, 1))) 3 3 _
      (EngineReach.step (EngineReach.step (EngineReach.step (EngineReach.step
        EngineReach.start
        (EngineStep.ingest _ (0, 0) 0 (by decide) (by decide) (by decide)))
        (EngineStep.ingest _ (1, 0) 1 (by decide) (by decide) (by decide)))
        (EngineStep.ingest _ (0, 2) 0 (by decide) (by decide) (by decide)))
        (EngineStep.ingest _ (2, 2) 1 (by decide) (by decide) (by decide)))
      (2, 1) (by decide))

end Minesweeper
